import Mathlib

/-!
Verification of the token-windowing, gather, prediction-scoring and
tokenization pipeline of `code/tfsemb_main.py` (247-pickling).

Each Python function used by the claims is shallowly embedded as an
executable Lean definition.  Tensors become (nested) lists; pandas data
frames become lists of records; Python exceptions become `Except`/`Option`
results; external library calls (the transformers tokenizer, the model
forward pass, softmax over floats) are taken as function parameters.
-/

namespace Tfsemb

/-- Embedding of the tail of `window` (tfsemb_main.py lines 171-173):
after the initial `islice` window, every further element `e` of the
iterator yields `result[1:] + (e,)`. -/
def windowSlide (result : List α) : List α → List (List α)
  | [] => []
  | e :: es => (result.drop 1 ++ [e]) :: windowSlide (result.drop 1 ++ [e]) es

/-- Embedding of `window(seq, n)` (tfsemb_main.py lines 164-173): the
first `islice` grabs `seq.take n`; it is yielded under the (always true)
guard `len(result) <= n`; then the iterator is consumed element by
element, sliding the window by one. -/
def window (seq : List α) (n : Nat) : List (List α) :=
  (if (seq.take n).length ≤ n then [seq.take n] else [])
    ++ windowSlide (seq.take n) (seq.drop n)

/-- Embedding of `torch.utils.data.DataLoader(input_ids, batch_size=2,
shuffle=False)` (tfsemb_main.py line 266): the window list is cut into
successive batches of two, the last batch possibly holding one window. -/
def chunksTwo : List α → List (List α)
  | [] => []
  | [a] => [[a]]
  | a :: b :: rest => [a, b] :: chunksTwo rest

/-- Embedding of the Python/torch indexing `row[-2]` on one row of a
tensor: succeeds with the second-to-last entry when the row has at least
two entries, and raises (here: `none`) otherwise. -/
def pyGetNeg2 (w : List α) : Option α :=
  if w.length < 2 then none else w[w.length - 2]?

/-- Embedding of the tensor slice `logits[:, -2, :]` (tfsemb_main.py
lines 197 and 200): from every window keep the second-to-last position;
any too-short window is an index error (`none`). -/
def mapSecondToLast : List (List α) → Option (List α)
  | [] => some []
  | v :: vs =>
    match pyGetNeg2 v, mapSecondToLast vs with
    | some x, some r => some (x :: r)
    | _, _ => none

/-- Embedding of `gather_logits(batch_num, logits)` (tfsemb_main.py
lines 191-202).  `logits` is one batch of per-window, per-position model
outputs.  On batch 0 with a single window it keeps `logits[0, :-1, :]`;
on batch 0 with several windows it concatenates `logits[0, :-1, :]` with
`logits[1:, -2, :]`; on every later batch it keeps `logits[:, -2, :]`.
An empty batch 0 would be a Python index error (`none`). -/
def gather_logits (batch_num : Nat) (logits : List (List α)) : Option (List α) :=
  if batch_num = 0 then
    match logits with
    | [] => none
    | [w] => some w.dropLast
    | w :: rest => (mapSecondToLast rest).map (fun r => w.dropLast ++ r)
  else
    mapSecondToLast logits

/-- Embedding of the batch loop of `generate_embeddings_with_context`
(tfsemb_main.py lines 274-281): `gather_logits` is applied to each batch
with its running batch number and the results are collected in order. -/
def collectBatches (i : Nat) : List (List (List α)) → Option (List (List α))
  | [] => some []
  | b :: bs =>
    match gather_logits i b, collectBatches (i + 1) bs with
    | some x, some r => some (x :: r)
    | _, _ => none

/-- Embedding of `extract_token_embeddings_new(concat_output)`
(tfsemb_main.py lines 176-188): the per-batch gathered outputs are
concatenated along dimension 0 and one NaN placeholder row (modelled as
`none`) is prepended for the first token. -/
def extract_token_embeddings_new (concat_output : List (List α)) : List (Option α) :=
  none :: concat_output.flatten.map some

/-- Embedding of one conversation of `generate_embeddings_with_context`
(tfsemb_main.py lines 258-285) up to the embedding extraction: the
token-id list is cut into sliding windows of `context_length`, the
windows are batched two at a time, the model `m` (a parameter mapping a
window to its per-position outputs) is run on each batch, the outputs
are gathered with `gather_logits` and extracted. -/
def run_conversation_embeddings (m : List Nat → List α) (token_list : List Nat)
    (context_length : Nat) : Option (List (Option α)) :=
  (collectBatches 0 (chunksTwo ((window token_list context_length).map (fun w => m w)))).map
    extract_token_embeddings_new

/-- Modelled from the spec claim for the gather rule: the list of
positions kept from window number `winIdx` (of length `L`) of a batch,
as the claim states it: on batch 0 with more than one window, every
position except the last for window 0 and the second-to-last position
for the rest; on batch 0 with exactly one window, the first through
second-to-last positions; on later batches, the second-to-last position
of every window. -/
def keepIndices (batch_num numWindows winIdx L : Nat) : List Nat :=
  if batch_num = 0 then
    if 1 < numWindows then
      if winIdx = 0 then (List.range L).filter (fun p => p ≠ L - 1)
      else [L - 2]
    else List.range (L - 1)
  else [L - 2]

/-- Modelled from the spec claim for the gather rule: keep from each
window of the batch exactly the positions named by `keepIndices`, in
window order. -/
def gather_logits_spec (batch_num : Nat) (logits : List (List α)) : List α :=
  logits.enum.flatMap
    (fun p => (keepIndices batch_num logits.length p.1 p.2.length).filterMap
      (fun q => p.2[q]?))

/-- Helper for `rowMax?`: folds over the remaining entries of a row
keeping the maximal value seen so far and the first index attaining it
(`i` is the index of the next entry). -/
def rowMaxAux (best : ℚ) (bestIdx i : Nat) : List ℚ → ℚ × Nat
  | [] => (best, bestIdx)
  | y :: ys => if best < y then rowMaxAux y i (i + 1) ys else rowMaxAux best bestIdx (i + 1) ys

/-- Embedding of `tensor.max(dim=1)` restricted to one row
(tfsemb_main.py lines 223-224): the maximal value of the row together
with the index attaining it; an empty row is an error (`none`). -/
def rowMax? : List ℚ → Option (ℚ × Nat)
  | [] => none
  | x :: xs => some (rowMaxAux x 0 1 xs)

/-- Embedding of `torch.tensor(sentence_token_ids)` (tfsemb_main.py
line 218): building a 2-D tensor from a list of rows requires all rows
to have equal length, otherwise torch raises (`none`). -/
def torchTensor2D? (l : List (List Nat)) : Option (List (List Nat)) :=
  match l with
  | [] => some []
  | w :: rest => if rest.all (fun v => v.length == w.length) then some (w :: rest) else none

/-- Embedding of the ground-truth construction of
`get_correct_prediction_probability` (tfsemb_main.py lines 215-219):
with exactly one gathered row, `sentence_token_ids[0][1:]`; otherwise
`torch.cat([sti[0, 1:], sti[1:, -1]])` where `sti` is the stacked window
tensor.  Missing windows or empty later rows are index errors. -/
def trueYOf (ps_len : Nat) (sentence_token_ids : List (List Nat)) : Option (List Nat) :=
  if ps_len = 1 then
    (sentence_token_ids[0]?).map (fun w => w.drop 1)
  else
    match torchTensor2D? sentence_token_ids with
    | none => none
    | some sti =>
      match sti[0]? with
      | none => none
      | some first =>
        match (sti.drop 1).mapM (fun w => w.getLast?) with
        | none => none
        | some lasts => some (first.drop 1 ++ lasts)

/-- Embedding of `prediction_probabilities.gather(1, true_y)`
(tfsemb_main.py lines 237-238): from row `i` of `probs` select the entry
at index `idx[i]`; torch requires the index tensor to have at most as
many rows as the input, and every selected index to be in range. -/
def gatherTrue? (probs : List (List ℚ)) (idx : List Nat) : Option (List ℚ) :=
  if idx.length ≤ probs.length then
    (probs.zip idx).mapM (fun p => p.1[p.2]?)
  else none

/-- Embedding of `get_correct_prediction_probability(args, concat_logits,
sentence_token_ids)` (tfsemb_main.py lines 205-241).  The tokenizer
calls `convert_ids_to_tokens`/`convert_tokens_to_string` and the
floating-point `F.softmax` row operation are taken as parameters.
Returns the three per-position lists (top-1 word, top-1 probability,
true-token probability); each real entry is `some _` and the appended
Python `None` is `none`. -/
def get_correct_prediction_probability (cvtIdsToTokens : Nat → String)
    (cvtTokensToString : String → String) (softmaxRow : List ℚ → List ℚ)
    (concat_logits : List (List (List ℚ))) (sentence_token_ids : List (List Nat)) :
    Option (List (Option String) × List (Option ℚ) × List (Option ℚ)) :=
  let prediction_scores := concat_logits.flatten
  if prediction_scores.length = 0 then
    some ([none], [none], [none])
  else
    match trueYOf prediction_scores.length sentence_token_ids with
    | none => none
    | some true_y =>
      let prediction_probabilities := prediction_scores.map softmaxRow
      match prediction_probabilities.mapM rowMax? with
      | none => none
      | some maxes =>
        let predicted_words := maxes.map (fun mx => cvtTokensToString (cvtIdsToTokens mx.2))
        match gatherTrue? prediction_probabilities true_y with
        | none => none
        | some true_probs =>
          some (predicted_words.map some ++ [none],
                (maxes.map (fun mx => mx.1)).map some ++ [none],
                true_probs.map some ++ [none])

/-- Embedding of Python `string.punctuation`: the 32 ASCII punctuation
characters, in order. -/
def punctuationChars : List Char :=
  ['!', '"', '#', '$', '%', '&', '\x27', '(', ')', '*', '+', ',', '-', '.', '/',
   ':', ';', '<', '=', '>', '?', '@', '[', '\\', ']', '^', '_', '\x60',
   '\x7b', '|', '\x7d', '~']

/-- Embedding of `list(string.punctuation)` as one-character strings, the
values the token column is compared against in `remove_punctuation`. -/
def punctuationStrings : List String :=
  punctuationChars.map Char.toString

/-- One row of the pandas data frame as `tokenize_and_explode` sees it:
the word text, the remaining word-level columns (onset, offset, speaker,
conversation id, ... — opaque here as `wordFields`), and the columns the
pipeline adds.  Before a column is assigned, its Lean field merely holds
the caller's initial value, as a pandas frame would hold no column. -/
structure Row (φ : Type) where
  word : String
  wordFields : φ
  glove50_embeddings : Option (List ℚ)
  token : Option String
  token_id : Nat
  is_root : Bool
deriving DecidableEq, Repr

/-- Embedding of `glove.get_vector(x)` from gensim: a keyed lookup in the
static embedding table that raises `KeyError` (here `Except.error ()`)
for a missing word. -/
def glove_get_vector_raw (glove : List (String × List ℚ)) (x : String) :
    Except Unit (List ℚ) :=
  match glove.lookup x with
  | some v => Except.ok v
  | none => Except.error ()

/-- Embedding of `get_vector(x, glove)` (tfsemb_main.py lines 344-348):
the raw lookup with `KeyError` caught and turned into `None`. -/
def get_vector (x : String) (glove : List (String × List ℚ)) : Option (List ℚ) :=
  match glove_get_vector_raw glove x with
  | Except.ok v => some v
  | Except.error _ => none

/-- Embedding of `add_glove_embeddings(df, dim)` (tfsemb_main.py lines
73-81): with `dim = 50` every row gets a `glove50_embeddings` column via
`get_vector`; any other dimension raises. -/
def add_glove_embeddings (glove : List (String × List ℚ)) (dim : Nat)
    (rows : List (Row φ)) : Except String (List (Row φ)) :=
  if dim = 50 then
    Except.ok (rows.map (fun r => { r with glove50_embeddings := get_vector r.word glove }))
  else Except.error "Incorrect glove dimension"

/-- Embedding of the pandas `explode` of one token list: an empty list
explodes to a single NaN entry (`none`), a non-empty list to one entry
per token. -/
def explodeTokens (ts : List String) : List (Option String) :=
  match ts with
  | [] => [none]
  | _ => ts.map some

/-- Embedding of `df['token'] = df.word.apply(args.tokenizer.tokenize)`
followed by `df.explode('token')` (tfsemb_main.py lines 118-119): each
word row is replicated once per token of the word, all word-level
columns kept identical, tokens in tokenizer order. -/
def tokenizeExplode (tokenize : String → List String) (rows : List (Row φ)) :
    List (Row φ) :=
  rows.flatMap (fun r => (explodeTokens (tokenize r.word)).map (fun t => { r with token := t }))

/-- Embedding of `remove_punctuation(df)` (tfsemb_main.py lines 96-97):
keep the rows whose token is not in `list(string.punctuation)`; a NaN
token is not `isin` the punctuation list, so it is kept. -/
def remove_punctuation (rows : List (Row φ)) : List (Row φ) :=
  rows.filter (fun r =>
    match r.token with
    | some t => !(punctuationStrings.contains t)
    | none => true)

/-- Embedding of `convert_token_to_idx(df, tokenizer)` (tfsemb_main.py
lines 100-102): the tokenizer's `convert_tokens_to_ids` (a parameter) is
applied to the token column. -/
def convert_token_to_idx (convertTokensToIds : Option String → Nat)
    (rows : List (Row φ)) : List (Row φ) :=
  rows.map (fun r => { r with token_id := convertTokensToIds r.token })

/-- Embedding of `check_token_is_root(args, df)` (tfsemb_main.py lines
84-93): for `gpt2` the root flag compares the word with the stripped
`convert_tokens_to_string` of the token; for `bert` it compares the word
with the token; any other embedding type raises. -/
def check_token_is_root (embedding_type : String)
    (convertTokensToString : Option String → String) (rows : List (Row φ)) :
    Except String (List (Row φ)) :=
  if embedding_type = "gpt2" then
    Except.ok (rows.map (fun r =>
      { r with is_root := r.word == (convertTokensToString r.token).trim }))
  else if embedding_type = "bert" then
    Except.ok (rows.map (fun r => { r with is_root := some r.word == r.token }))
  else
    Except.error "embedding type does not exist"

/-- Embedding of `tokenize_and_explode(args, df)` (tfsemb_main.py lines
105-125): add the GloVe column (dimension fixed to 50), tokenize and
explode each word, drop punctuation tokens, convert tokens to ids and
tag root tokens. -/
def tokenize_and_explode (glove : List (String × List ℚ))
    (tokenize : String → List String) (convertTokensToIds : Option String → Nat)
    (convertTokensToString : Option String → String) (embedding_type : String)
    (rows : List (Row φ)) : Except String (List (Row φ)) := do
  let rows1 ← add_glove_embeddings glove 50 rows
  let rows2 := tokenizeExplode tokenize rows1
  let rows3 := remove_punctuation rows2
  let rows4 := convert_token_to_idx convertTokensToIds rows3
  check_token_is_root embedding_type convertTokensToString rows4

/-- Embedding of the conversation-count assertion of
`setup_environ(args)` (tfsemb_main.py lines 368-374): subject `625`
asserts exactly 54 listed conversations, every other subject exactly 79;
a failed assertion aborts. -/
def setup_environ (subject : String) (conversation_list : List String) :
    Except String Unit :=
  if subject = "625" then
    if conversation_list.length = 54 then Except.ok () else Except.error "AssertionError"
  else
    if conversation_list.length = 79 then Except.ok () else Except.error "AssertionError"

/-- Embedding of the `main()` ordering relevant to the setup assertion
(tfsemb_main.py lines 454-472): `setup_environ` runs before any model
inference, so inference (a parameter) produces a result only when the
assertion passed. -/
def run_after_setup (subject : String) (conversation_list : List String)
    (infer : Unit → α) : Except String α :=
  match setup_environ subject conversation_list with
  | Except.ok _ => Except.ok (infer ())
  | Except.error e => Except.error e

end Tfsemb

namespace Tfsemb

theorem windowSlide_nil (result : List α) : windowSlide result [] = [] := rfl

theorem windowSlide_length (result : List α) (rest : List α) :
    (windowSlide result rest).length = rest.length := by
  induction rest generalizing result with
  | nil => rfl
  | cons e es ih => simp [windowSlide, ih]

theorem windowSlide_getElem? (rest : List α) (result : List α) (n : Nat)
    (hr : result.length = n) (hn : 1 ≤ n) (i : Nat) (hi : i < rest.length) :
    (windowSlide result rest)[i]? = some (((result ++ rest).drop (i + 1)).take n) := by
  induction rest generalizing result i with
  | nil => simp at hi
  | cons e es ih =>
    have hres : result ≠ [] := by
      intro hc
      rw [hc] at hr
      simp at hr
      omega
    cases i with
    | zero =>
      have hdrop : (result ++ e :: es).drop 1 = result.drop 1 ++ e :: es := by
        rw [List.drop_append_eq_append_drop]
        have : 1 - result.length = 0 := by omega
        rw [this]
        simp
      have htake : (result.drop 1 ++ e :: es).take n = result.drop 1 ++ [e] := by
        rw [List.take_append_eq_append_take]
        have h1 : (result.drop 1).length = n - 1 := by simp [hr]
        have h2 : (result.drop 1).take n = result.drop 1 := by
          apply List.take_of_length_le
          omega
        have h3 : n - (result.drop 1).length = 1 := by omega
        rw [h2, h3]
        simp
      simp only [windowSlide, List.getElem?_cons_zero, hdrop, htake]
    | succ j =>
      have hlen : (result.drop 1 ++ [e]).length = n := by
        simp
        omega
      have hj : j < es.length := by
        simp at hi
        omega
      have step := ih (result.drop 1 ++ [e]) hlen j hj
      have hassoc : (result.drop 1 ++ [e]) ++ es = (result ++ e :: es).drop 1 := by
        rw [List.drop_append_eq_append_drop]
        have : 1 - result.length = 0 := by omega
        rw [this]
        simp
      simp only [windowSlide, List.getElem?_cons_succ, step, hassoc, List.drop_drop]
      rw [Nat.add_comm 1 (j + 1)]

theorem window_eq (seq : List α) (n : Nat) :
    window seq n = seq.take n :: windowSlide (seq.take n) (seq.drop n) := by
  unfold window
  rw [if_pos]
  · rfl
  · rw [List.length_take]
    exact min_le_left _ _

theorem window_length (seq : List α) (n : Nat) :
    (window seq n).length = seq.length - n + 1 := by
  rw [window_eq]
  simp [windowSlide_length]

theorem window_getElem? (seq : List α) (n : Nat) (hn : 1 ≤ n) (hs : n ≤ seq.length)
    (i : Nat) (hi : i ≤ seq.length - n) :
    (window seq n)[i]? = some ((seq.drop i).take n) := by
  rw [window_eq]
  cases i with
  | zero => simp
  | succ j =>
    have hr : (seq.take n).length = n := by
      rw [List.length_take]
      omega
    have hj : j < (seq.drop n).length := by
      rw [List.length_drop]
      omega
    rw [List.getElem?_cons_succ, windowSlide_getElem? (seq.drop n) (seq.take n) n hr hn j hj,
      List.take_append_drop]

theorem window_mem_length (seq : List α) (n : Nat) (hn : 1 ≤ n) (hs : n ≤ seq.length)
    (w : List α) (hw : w ∈ window seq n) : w.length = n := by
  obtain ⟨i, hi⟩ := List.mem_iff_getElem?.mp hw
  obtain ⟨hilt, -⟩ := List.getElem?_eq_some.mp hi
  rw [window_length] at hilt
  have hile : i ≤ seq.length - n := by omega
  rw [window_getElem? seq n hn hs i hile] at hi
  have : w = (seq.drop i).take n := by
    injection hi with h
    exact h.symm
  rw [this, List.length_take, List.length_drop]
  omega

theorem window_covers (seq : List α) (n : Nat) (hn : 1 ≤ n) (hs : n ≤ seq.length)
    (i : Nat) (h : i < seq.length) :
    ∃ w ∈ window seq n, seq.get ⟨i, h⟩ ∈ w := by
  set j := min i (seq.length - n) with hj
  have hjle : j ≤ seq.length - n := min_le_right _ _
  have hji : j ≤ i := min_le_left _ _
  have hwin := window_getElem? seq n hn hs j hjle
  refine ⟨(seq.drop j).take n, ?_, ?_⟩
  · exact List.getElem?_mem hwin
  · have hlt : i - j < n := by omega
    have hget : ((seq.drop j).take n)[i - j]? = some (seq.get ⟨i, h⟩) := by
      rw [List.getElem?_take, if_pos hlt, List.getElem?_drop]
      have : j + (i - j) = i := by omega
      rw [this, List.getElem?_eq_getElem h]
      rfl
    exact List.getElem?_mem hget

/-- Claim C1, as frozen, is refuted on the sequence `[1, 2, 3]` with
window size `W = 2` (so `N = 3 ≥ W`): the window operation emits the two
windows `[1, 2]` and `[2, 3]`, both of length exactly `W`; no final
shorter window containing a remainder is ever emitted when `N ≥ W`. -/
theorem claim1_counterexample : window [1, 2, 3] 2 = [[1, 2], [2, 3]] := by decide

/-- Claim C1 (amended): for every token-id sequence of length `N` and
window size `W` with `1 ≤ W ≤ N`, the window operation emits exactly
`N - W + 1` overlapping windows with a forward sliding step of 1 (window
`i` is the slice of length `W` starting at position `i`), every emitted
window has length exactly `W` (no shorter remainder window exists), and
every token is covered by at least one window. -/
theorem claim1_window_sliding (seq : List Nat) (W : Nat) (h1 : 1 ≤ W)
    (h2 : W ≤ seq.length) :
    (window seq W).length = seq.length - W + 1 ∧
    (∀ i, i ≤ seq.length - W → (window seq W)[i]? = some ((seq.drop i).take W)) ∧
    (∀ w ∈ window seq W, w.length = W) ∧
    (∀ i, (h : i < seq.length) → ∃ w ∈ window seq W, seq.get ⟨i, h⟩ ∈ w) :=
  ⟨window_length seq W,
   fun i hi => window_getElem? seq W h1 h2 i hi,
   fun w hw => window_mem_length seq W h1 h2 w hw,
   fun i h => window_covers seq W h1 h2 i h⟩

/-- Witness for C1: the amended claim evaluated on the concrete sequence
`[1, 2, 3]` with `W = 2` gives `3 - 2 + 1 = 2` windows. -/
theorem claim1_window_sliding_witness : (window [1, 2, 3] 2).length = 3 - 2 + 1 :=
  (claim1_window_sliding [1, 2, 3] 2 (by decide) (by decide)).1

/-- Claim C10: for every input sequence whose length `N` is strictly
less than the window size `W`, the window operation yields exactly one
window, equal to the entire sequence in order (in particular an empty
sequence yields one empty window), rather than raising or yielding
nothing. -/
theorem claim10_window_short (seq : List Nat) (W : Nat) (h : seq.length < W) :
    window seq W = [seq] := by
  rw [window_eq, List.take_of_length_le (by omega), List.drop_eq_nil_of_le (by omega)]
  rfl

/-- Witness for C10: a one-element sequence with window size 5 yields the
single window holding the whole sequence. -/
theorem claim10_window_short_witness : window [7] 5 = [[7]] :=
  claim10_window_short [7] 5 (by decide)

theorem range_filterMap_getElem (w : List α) (k : Nat) :
    (List.range k).filterMap (fun i => w[i]?) = w.take k := by
  induction k with
  | zero => simp
  | succ j ih =>
    rw [List.range_succ, List.filterMap_append, ih, List.take_succ]
    cases h : w[j]? <;> simp [h]

theorem filter_range_ne_last (L : Nat) :
    (List.range L).filter (fun p => decide (p ≠ L - 1)) = List.range (L - 1) := by
  cases L with
  | zero => rfl
  | succ M =>
    rw [List.range_succ, List.filter_append]
    have h1 : (List.range M).filter (fun p => decide (p ≠ M + 1 - 1)) = List.range M := by
      apply List.filter_eq_self.mpr
      intro a ha
      simp only [List.mem_range] at ha
      simp
      omega
    have h2 : ([M] : List Nat).filter (fun p => decide (p ≠ M + 1 - 1)) = [] := by
      simp
    rw [h1, h2]
    simp

theorem filterMap_singleton_index (g : Nat → Option α) (k : Nat) :
    ([k] : List Nat).filterMap g = (g k).toList := by
  cases h : g k <;> simp [h]

theorem flatMap_option_toList (l : List β) (g : β → Option α) :
    (l.flatMap fun v => (g v).toList) = l.filterMap g := by
  induction l with
  | nil => rfl
  | cons v vs ih => cases h : g v <;> simp [List.flatMap_cons, h, ih]

theorem flatMap_enumFrom_of_ge (l : List β) (j : Nat) (F : Nat × β → List α)
    (G : β → List α) (h : ∀ i v, j ≤ i → F (i, v) = G v) :
    (List.enumFrom j l).flatMap F = l.flatMap G := by
  induction l generalizing j with
  | nil => rfl
  | cons v vs ih =>
    rw [List.enumFrom_cons, List.flatMap_cons, List.flatMap_cons, h j v (le_refl j),
      ih (j + 1) (fun i u hi => h i u (by omega))]

theorem mapSecondToLast_eq (l : List (List α)) (h : ∀ v ∈ l, 2 ≤ v.length) :
    mapSecondToLast l = some (l.filterMap (fun v => v[v.length - 2]?)) := by
  induction l with
  | nil => rfl
  | cons v vs ih =>
    have hv : 2 ≤ v.length := h v (by simp)
    have hlt : v.length - 2 < v.length := by omega
    have hsome : v[v.length - 2]? = some v[v.length - 2] :=
      List.getElem?_eq_getElem hlt
    have hg : pyGetNeg2 v = some v[v.length - 2] := by
      rw [pyGetNeg2, if_neg (by omega)]
      exact hsome
    have hrec := ih (fun u hu => h u (by simp [hu]))
    simp only [mapSecondToLast, hg, hrec, List.filterMap_cons, hsome]

/-- Claim C3: the logit/embedding gather applies the positional rule of
the claim: on batch 0 with more than one window it keeps every position
but the last of the first window and the second-to-last position of each
remaining window; on batch 0 with exactly one window it keeps the first
through second-to-last positions; on every later batch it keeps only the
second-to-last position of each window.  `gather_logits_spec` is written
from the claim's words, and on every non-empty batch of windows of
uniform length at least 2 the code's `gather_logits` agrees with it. -/
theorem keepIndices_batch0_single (L : Nat) :
    keepIndices 0 1 0 L = List.range (L - 1) := by
  rw [keepIndices, if_pos rfl, if_neg (by omega)]

theorem keepIndices_batch0_first (nW L : Nat) (h : 1 < nW) :
    keepIndices 0 nW 0 L = (List.range L).filter (fun p => decide (p ≠ L - 1)) := by
  rw [keepIndices, if_pos rfl, if_pos h, if_pos rfl]

theorem keepIndices_batch0_rest (nW i L : Nat) (h : 1 < nW) (hi : i ≠ 0) :
    keepIndices 0 nW i L = [L - 2] := by
  rw [keepIndices, if_pos rfl, if_pos h, if_neg hi]

theorem keepIndices_later (bn nW i L : Nat) (h : bn ≠ 0) :
    keepIndices bn nW i L = [L - 2] := by
  rw [keepIndices, if_neg h]

theorem claim3_gather_positional_rule (bn : Nat) (logits : List (List α)) (L : Nat)
    (hL : 2 ≤ L) (hlen : ∀ w ∈ logits, w.length = L) (hne : logits ≠ []) :
    gather_logits bn logits = some (gather_logits_spec bn logits) := by
  by_cases hbn : bn = 0
  · subst hbn
    match logits, hne with
    | [w], _ =>
      have hw : w.length = L := hlen w (by simp)
      have hcode : gather_logits 0 [w] = some w.dropLast := rfl
      rw [hcode, gather_logits_spec]
      simp only [List.enum_cons, List.enumFrom_nil, List.flatMap_cons, List.flatMap_nil,
        List.append_nil, List.length_singleton]
      rw [keepIndices_batch0_single, range_filterMap_getElem, List.dropLast_eq_take]
    | w :: v :: rest, _ =>
      have hw : w.length = L := hlen w (by simp)
      have htail : ∀ u ∈ v :: rest, 2 ≤ u.length := by
        intro u hu
        have := hlen u (by simp [hu])
        omega
      have hcode : gather_logits 0 (w :: v :: rest) =
          (mapSecondToLast (v :: rest)).map (fun r => w.dropLast ++ r) := rfl
      have hnW : 1 < (w :: v :: rest).length := by simp
      rw [hcode, mapSecondToLast_eq (v :: rest) htail, gather_logits_spec]
      simp only [List.enum_cons, List.flatMap_cons, Option.map_some']
      have hrest : (List.enumFrom 1 (v :: rest)).flatMap
          (fun p => (keepIndices 0 (w :: v :: rest).length p.1 p.2.length).filterMap
            (fun q => p.2[q]?)) =
          (v :: rest).filterMap (fun u => u[u.length - 2]?) := by
        rw [flatMap_enumFrom_of_ge (v :: rest) 1 _
          (fun u => (u[u.length - 2]?).toList)
          (fun i u hi => by
            rw [keepIndices_batch0_rest _ _ _ hnW (by omega)]
            exact filterMap_singleton_index _ _)]
        exact flatMap_option_toList _ _
      rw [keepIndices_batch0_first _ _ hnW, filter_range_ne_last, range_filterMap_getElem,
        hrest, List.dropLast_eq_take]
  · rw [gather_logits.eq_def, if_neg hbn]
    have hall : ∀ v ∈ logits, 2 ≤ v.length := by
      intro v hv
      have := hlen v hv
      omega
    rw [mapSecondToLast_eq logits hall, gather_logits_spec]
    have henum : logits.enum.flatMap
        (fun p => (keepIndices bn logits.length p.1 p.2.length).filterMap
          (fun q => p.2[q]?)) =
        logits.flatMap (fun u => (u[u.length - 2]?).toList) := by
      rw [show logits.enum = List.enumFrom 0 logits from rfl]
      apply flatMap_enumFrom_of_ge
      intro i u _
      rw [keepIndices_later _ _ _ _ hbn]
      exact filterMap_singleton_index _ _
    rw [henum, flatMap_option_toList]

/-- Witness for C3: on batch 0 holding the two windows `[3, 4, 5]` and
`[6, 7, 8]`, the gather keeps `[3, 4]` (all but the last position of the
first window) and `[7]` (the second-to-last position of the second
window), agreeing with the positional rule. -/
theorem claim3_gather_positional_rule_witness :
    gather_logits 0 [[3, 4, 5], [6, 7, 8]] =
      some (gather_logits_spec 0 [[(3 : Nat), 4, 5], [6, 7, 8]]) :=
  claim3_gather_positional_rule 0 [[3, 4, 5], [6, 7, 8]] 3 (by decide)
    (by decide) (by decide)

theorem collectBatches_nil (i : Nat) :
    collectBatches i ([] : List (List (List α))) = some [] := rfl

theorem collectBatches_cons (i : Nat) (b : List (List α)) (bs : List (List (List α))) :
    collectBatches i (b :: bs) =
      match gather_logits i b, collectBatches (i + 1) bs with
      | some x, some r => some (x :: r)
      | _, _ => none := rfl

theorem gather_logits_pos (i : Nat) (hi : i ≠ 0) (l : List (List α)) :
    gather_logits i l = mapSecondToLast l := by
  rw [gather_logits.eq_def, if_neg hi]

theorem collectBatches_chunksTwo_pos (l : List (List α)) (i : Nat) (hi : 1 ≤ i)
    (h : ∀ v ∈ l, 2 ≤ v.length) :
    ∃ bl, collectBatches i (chunksTwo l) = some bl ∧
      bl.flatten = l.filterMap (fun v => v[v.length - 2]?) := by
  induction l using chunksTwo.induct generalizing i with
  | case1 => exact ⟨[], rfl, rfl⟩
  | case2 a =>
    have hg : gather_logits i [a] =
        some ([a].filterMap (fun v => v[v.length - 2]?)) := by
      rw [gather_logits_pos i (by omega) [a], mapSecondToLast_eq [a] h]
    refine ⟨[[a].filterMap (fun v => v[v.length - 2]?)], ?_, by simp⟩
    show collectBatches i [[a]] = _
    rw [collectBatches_cons]
    simp only [hg, collectBatches_nil]
  | case3 a b rest ih =>
    have hab : ∀ v ∈ [a, b], 2 ≤ v.length := by
      intro v hv
      simp only [List.mem_cons, List.not_mem_nil, or_false] at hv
      rcases hv with rfl | rfl
      · exact h v (by simp)
      · exact h v (by simp)
    have hg : gather_logits i [a, b] =
        some ([a, b].filterMap (fun v => v[v.length - 2]?)) := by
      rw [gather_logits_pos i (by omega) [a, b], mapSecondToLast_eq [a, b] hab]
    obtain ⟨bl, hbl, hfl⟩ := ih (i + 1) (by omega)
      (fun v hv => h v (by simp [hv]))
    refine ⟨[a, b].filterMap (fun v => v[v.length - 2]?) :: bl, ?_, ?_⟩
    · show collectBatches i ([a, b] :: chunksTwo rest) = _
      rw [collectBatches_cons]
      simp only [hg, hbl]
    · rw [List.flatten_cons, hfl, ← List.filterMap_append]
      rfl

theorem collectBatches_chunksTwo_zero (x : List α) (xs : List (List α))
    (h : ∀ v ∈ x :: xs, 2 ≤ v.length) :
    ∃ bl, collectBatches 0 (chunksTwo (x :: xs)) = some bl ∧
      bl.flatten = x.dropLast ++ xs.filterMap (fun v => v[v.length - 2]?) := by
  cases xs with
  | nil =>
    refine ⟨[x.dropLast], ?_, by simp⟩
    show collectBatches 0 [[x]] = _
    rw [collectBatches_cons]
    have hg : gather_logits 0 [x] = some x.dropLast := rfl
    simp only [hg, collectBatches_nil]
  | cons y ys =>
    have hy : 2 ≤ y.length := h y (by simp)
    have hg : gather_logits 0 [x, y] =
        some (x.dropLast ++ [y].filterMap (fun v => v[v.length - 2]?)) := by
      have hcode : gather_logits 0 [x, y] =
          (mapSecondToLast [y]).map (fun r => x.dropLast ++ r) := rfl
      rw [hcode, mapSecondToLast_eq [y] (by simpa using hy)]
      rfl
    obtain ⟨bl, hbl, hfl⟩ := collectBatches_chunksTwo_pos ys 1 (by omega)
      (fun v hv => h v (by simp [hv]))
    refine ⟨(x.dropLast ++ [y].filterMap (fun v => v[v.length - 2]?)) :: bl, ?_, ?_⟩
    · show collectBatches 0 ([x, y] :: chunksTwo ys) = _
      rw [collectBatches_cons]
      simp only [hg, hbl]
    · rw [List.flatten_cons, hfl, List.append_assoc, ← List.filterMap_append]
      rfl

theorem filterMap_length_all_some (l : List β) (g : β → Option α)
    (h : ∀ v ∈ l, (g v).isSome) : (l.filterMap g).length = l.length := by
  induction l with
  | nil => rfl
  | cons v vs ih =>
    obtain ⟨xv, hxv⟩ := Option.isSome_iff_exists.mp (h v (by simp))
    rw [List.filterMap_cons, hxv]
    simp only [List.length_cons]
    rw [ih (fun u hu => h u (by simp [hu]))]

/-- Claim C4: for every conversation with at least two tokens (and a
context window of at least two), the gathered embeddings — the gather
rule outputs concatenated across the two-window batches, plus one
prepended NaN placeholder row for the very first token — number exactly
one embedding row per token of the conversation; the rows are, in
original sequence order, the model outputs at all but the last position
of the first window followed by the second-to-last position of every
later window. -/
theorem claim4_one_embedding_per_token (m : List Nat → List β) (tl : List Nat)
    (W : Nat) (htl : 2 ≤ tl.length) (hW : 2 ≤ W)
    (hm : ∀ w, (m w).length = w.length) :
    ∃ out, run_conversation_embeddings m tl W = some out ∧
      out.length = tl.length ∧
      out = none :: ((m (tl.take W)).dropLast ++
        (windowSlide (tl.take W) (tl.drop W)).filterMap
          (fun v => (m v)[(m v).length - 2]?)).map some := by
  have hslide : ∀ u ∈ windowSlide (tl.take W) (tl.drop W), 2 ≤ u.length := by
    intro u hu
    by_cases hWN : W ≤ tl.length
    · have humem : u ∈ window tl W := by
        rw [window_eq]
        exact List.mem_cons_of_mem _ hu
      have := window_mem_length tl W (by omega) hWN u humem
      omega
    · have : tl.drop W = [] := List.drop_eq_nil_of_le (by omega)
      rw [this] at hu
      simp [windowSlide] at hu
  have hall : ∀ v ∈ m (tl.take W) :: (windowSlide (tl.take W) (tl.drop W)).map m,
      2 ≤ v.length := by
    intro v hv
    rcases List.mem_cons.mp hv with hv | hv
    · subst hv
      rw [hm, List.length_take]
      omega
    · obtain ⟨u, hu, hv⟩ := List.mem_map.mp hv
      subst hv
      rw [hm]
      exact hslide u hu
  obtain ⟨bl, hbl, hfl⟩ := collectBatches_chunksTwo_zero (m (tl.take W))
    ((windowSlide (tl.take W) (tl.drop W)).map m) hall
  have hwinmap : (window tl W).map m =
      m (tl.take W) :: (windowSlide (tl.take W) (tl.drop W)).map m := by
    rw [window_eq, List.map_cons]
  have hfm : ((windowSlide (tl.take W) (tl.drop W)).map m).filterMap
      (fun v => v[v.length - 2]?) =
      (windowSlide (tl.take W) (tl.drop W)).filterMap
        (fun v => (m v)[(m v).length - 2]?) := by
    rw [List.filterMap_map]
    rfl
  refine ⟨extract_token_embeddings_new bl, ?_, ?_, ?_⟩
  · rw [run_conversation_embeddings, hwinmap, hbl]
    rfl
  · rw [extract_token_embeddings_new]
    simp only [List.length_cons, List.length_map]
    rw [hfl, List.length_append, hfm, filterMap_length_all_some _ _ (by
      intro u hu
      have h2 := hslide u hu
      have : (m u).length - 2 < (m u).length := by rw [hm]; omega
      rw [List.getElem?_eq_getElem this]
      rfl)]
    rw [List.length_dropLast, hm, List.length_take, windowSlide_length,
      List.length_drop]
    omega
  · rw [extract_token_embeddings_new, hfl, hfm]

/-- Claim C6: for every conversation with a non-empty gathered logit
set, whenever `get_correct_prediction_probability` returns, the last
entry of each of the three returned prediction lists (top-1 word, top-1
probability, true-token probability) — the conversation's final token
position, which has no next ground truth — is the missing-value
placeholder `none`. -/
theorem claim6_last_entries_are_placeholder (cit : Nat → String)
    (cts : String → String) (f : List ℚ → List ℚ)
    (concat_logits : List (List (List ℚ))) (sti : List (List Nat))
    (hne : concat_logits.flatten ≠ [])
    (r : List (Option String) × List (Option ℚ) × List (Option ℚ))
    (hr : get_correct_prediction_probability cit cts f concat_logits sti = some r) :
    r.1.getLast? = some none ∧ r.2.1.getLast? = some none ∧
      r.2.2.getLast? = some none := by
  have h0 : ¬(concat_logits.flatten.length = 0) :=
    fun hc => hne (List.length_eq_zero.mp hc)
  simp only [get_correct_prediction_probability] at hr
  rw [if_neg h0] at hr
  cases hty : trueYOf concat_logits.flatten.length sti with
  | none =>
    simp only [hty] at hr
    exact Option.noConfusion hr
  | some ty =>
    simp only [hty] at hr
    cases hmx : (concat_logits.flatten.map f).mapM rowMax? with
    | none =>
      simp only [hmx] at hr
      exact Option.noConfusion hr
    | some maxes =>
      simp only [hmx] at hr
      cases hgt : gatherTrue? (concat_logits.flatten.map f) ty with
      | none =>
        simp only [hgt] at hr
        exact Option.noConfusion hr
      | some tp =>
        simp only [hgt] at hr
        injection hr with h
        subst h
        exact ⟨List.getLast?_concat _, List.getLast?_concat _, List.getLast?_concat _⟩

/-- Witness for C6: a concrete two-row gathered logit set; the scorer
returns and each list ends with the placeholder. -/
theorem claim6_last_entries_are_placeholder_witness :
    ([some "t", some "t", none] : List (Option String)).getLast? = some none ∧
      ([some (2 : ℚ), some 4, none] : List (Option ℚ)).getLast? = some none ∧
      ([some (2 : ℚ), some 3, none] : List (Option ℚ)).getLast? = some none :=
  claim6_last_entries_are_placeholder (fun _ => "t") id id [[[1, 2], [3, 4]]]
    [[0, 1], [1, 0]] (by decide)
    ([some "t", some "t", none], [some 2, some 4, none], [some 2, some 3, none])
    (by decide)

/-- Claim C2, as frozen, is refuted at the claim's own example shape: a
single window of two token ids (ids 0 and 1) with one gathered logit row
`[1, 2]` (both tokenizer conversions constant, softmax taken as the
identity).  The output has 2 rows, but row 1 holds a real top-1 word, a
real top-1 probability and a real true-token probability, while row 2
holds the placeholders — the opposite of the claim's placement. -/
theorem claim2_counterexample :
    get_correct_prediction_probability (fun _ => "t") id id [[[1, 2]]] [[0, 1]] =
      some ([some "t", none], [some 2, none], [some 2, none]) := by decide

/-- Claim C2 (amended): for a two-token conversation processed as one
window of context length 2 with one gathered logit row (the example
`["the", "cat"]` of the claim), the output lists have exactly 2 rows;
row 1 holds real values — the top-1 prediction made from the first
position and the probability assigned to the second token — and row 2
(the last token) holds the missing-value placeholder `none`.  The code
appends the placeholder after the real entries; it never places it
first. -/
theorem claim2_first_row_real_last_row_placeholder (cit : Nat → String)
    (cts : String → String) (f : List ℚ → List ℚ) (r : List ℚ) (a b : Nat)
    (p : ℚ) (i : Nat) (q : ℚ) (hmax : rowMax? (f r) = some (p, i))
    (hq : (f r)[b]? = some q) :
    get_correct_prediction_probability cit cts f [[r]] [[a, b]] =
      some ([some (cts (cit i)), none], [some p, none], [some q, none]) := by
  simp [get_correct_prediction_probability, trueYOf, gatherTrue?, List.mapM.loop,
    hmax, hq]

/-- Witness for C2: the amended claim evaluated at the concrete gathered
row `[5, 7]` and window `[0, 0]`: row 1 is real (top-1 word from index 1,
top-1 probability 7, true-token probability 5), row 2 the placeholder. -/
theorem claim2_first_row_real_last_row_placeholder_witness :
    get_correct_prediction_probability (fun _ => "w") id id [[[5, 7]]] [[0, 0]] =
      some ([some "w", none], [some 7, none], [some 5, none]) :=
  claim2_first_row_real_last_row_placeholder (fun _ => "w") id id [5, 7] 0 0
    7 1 5 (by decide) (by decide)

/-- Witness for C4: for the four-token conversation `[1, 2, 3, 4]` with
context length 2 (three windows, two batches) and the model sending each
window to itself, the pipeline produces exactly four rows: the NaN
placeholder and one gathered output per remaining token, in order. -/
theorem claim4_one_embedding_per_token_witness :
    ∃ out, run_conversation_embeddings (fun w => w) [1, 2, 3, 4] 2 = some out ∧
      out.length = 4 ∧
      out = none :: (((fun (w : List Nat) => w) ([1, 2, 3, 4].take 2)).dropLast ++
        (windowSlide ([1, 2, 3, 4].take 2) ([1, 2, 3, 4].drop 2)).filterMap
          (fun v => ((fun (w : List Nat) => w) v)[((fun (w : List Nat) => w) v).length - 2]?)).map
            some := by
  have h := claim4_one_embedding_per_token (fun w => w) [1, 2, 3, 4] 2
    (by decide) (by decide) (fun w => rfl)
  simpa using h

/-- Claim C9: for every word string, the vector lookup returns exactly
the association-table lookup: the table's vector when the word is
present, and the missing-value placeholder `none` when the raw gensim
lookup raises `KeyError`, which `get_vector` catches instead of
propagating. -/
theorem claim9_get_vector_recovers_miss (glove : List (String × List ℚ))
    (x : String) : get_vector x glove = glove.lookup x := by
  rw [get_vector, glove_get_vector_raw]
  cases glove.lookup x <;> rfl

/-- Claim C7: environment setup asserts that the conversation-directory
listing has exactly 54 entries when the subject is `625` and exactly 79
entries for every other subject; the run reaches inference (returns the
inference result) precisely when the matching count holds, and any other
count aborts with a failed assertion before inference begins. -/
theorem claim7_conversation_count_assertion (subject : String)
    (conversation_list : List String) (infer : Unit → α) :
    (run_after_setup subject conversation_list infer = Except.ok (infer ())) ↔
      (if subject = "625" then conversation_list.length = 54
       else conversation_list.length = 79) := by
  by_cases hs : subject = "625"
  · rw [if_pos hs]
    by_cases hn : conversation_list.length = 54
    · simp [run_after_setup, setup_environ, hs, hn]
    · simp [run_after_setup, setup_environ, hs, hn]
  · rw [if_neg hs]
    by_cases hn : conversation_list.length = 79
    · simp [run_after_setup, setup_environ, hs, hn]
    · simp [run_after_setup, setup_environ, hs, hn]

/-- Claim C8, as frozen, is refuted: `roberta` is one of the recognized
model families of `select_tokenizer_and_model`, yet the root-token
tagging of `check_token_is_root` raises for it (only `gpt2` and `bert`
are handled). -/
theorem claim8_counterexample :
    (check_token_is_root "roberta" (fun _ => "") ([] : List (Row Unit))).isOk
      = false := rfl

/-- Claim C8 (amended): the root-token tagging of `check_token_is_root`
completes without raising exactly for the embedding types `gpt2` and
`bert`; it raises for every other embedding type, including the
elsewhere-recognized model families `roberta` and `bart`. -/
theorem claim8_root_tagging_domain (embedding_type : String)
    (ctts : Option String → String) (rows : List (Row φ)) :
    (check_token_is_root embedding_type ctts rows).isOk = true ↔
      (embedding_type = "gpt2" ∨ embedding_type = "bert") := by
  by_cases h1 : embedding_type = "gpt2"
  · simp [check_token_is_root, h1, Except.isOk, Except.toBool]
  · by_cases h2 : embedding_type = "bert"
    · simp [check_token_is_root, h1, h2, Except.isOk, Except.toBool]
    · simp [check_token_is_root, h1, h2, Except.isOk, Except.toBool]

theorem explodeTokens_of_ne_nil (ts : List String) (h : ts ≠ []) :
    explodeTokens ts = ts.map some := by
  cases ts with
  | nil => exact absurd rfl h
  | cons a l => rfl

theorem flatMap_congr_mem (l : List β) (f g : β → List α)
    (h : ∀ a ∈ l, f a = g a) : l.flatMap f = l.flatMap g := by
  induction l with
  | nil => rfl
  | cons x xs ih =>
    rw [List.flatMap_cons, List.flatMap_cons, h x (by simp),
      ih (fun a ha => h a (by simp [ha]))]

/-- Claim C5, as frozen, is refuted: the word `"a."`, split by the
tokenizer into `k = 2` tokens `["a", "."]`, yields only 1 row in the
table produced by `tokenize_and_explode` (with `gpt2` tagging and any
id/string conversions), because the punctuation token `"."` is dropped
after the explode step. -/
theorem claim5_counterexample :
    (tokenize_and_explode ([] : List (String × List ℚ)) (fun _ => ["a", "."])
        (fun _ => 0) (fun o => o.getD "") "gpt2"
        [{ word := "a.", wordFields := (), glove50_embeddings := none,
           token := none, token_id := 0, is_root := false }]).toOption.map
      List.length = some 1 ∧ (["a", "."] : List String).length = 2 := by decide

/-- Claim C5 (amended): for every word that the tokenizer splits into
one or more tokens, the table produced by `tokenize_and_explode` (with
`gpt2` root tagging) contains exactly one row per non-punctuation token
of that word — so exactly k rows when none of the word's k tokens is a
punctuation mark — each row replicating all of the word's word-level
fields identically, with the word's tokens in tokenizer insertion
order. -/
theorem claim5_explode_row_per_token (glove : List (String × List ℚ))
    (tokenize : String → List String) (cti : Option String → Nat)
    (ctts : Option String → String) (rows : List (Row φ))
    (h : ∀ r ∈ rows, tokenize r.word ≠ []) :
    tokenize_and_explode glove tokenize cti ctts "gpt2" rows =
      Except.ok (rows.flatMap (fun r =>
        ((tokenize r.word).filter (fun t => !(punctuationStrings.contains t))).map
          (fun t =>
            { word := r.word, wordFields := r.wordFields,
              glove50_embeddings := get_vector r.word glove,
              token := some t, token_id := cti (some t),
              is_root := r.word == (ctts (some t)).trim }))) := by
  have hred : tokenize_and_explode glove tokenize cti ctts "gpt2" rows =
      Except.ok ((convert_token_to_idx cti (remove_punctuation
        (tokenizeExplode tokenize (rows.map (fun r =>
          { r with glove50_embeddings := get_vector r.word glove }))))).map
        (fun r => { r with is_root := r.word == (ctts r.token).trim })) := rfl
  rw [hred]
  congr 1
  rw [tokenizeExplode, List.flatMap_map, remove_punctuation, List.filter_flatMap,
    convert_token_to_idx, List.map_flatMap, List.map_flatMap]
  apply flatMap_congr_mem
  intro r hrm
  rw [explodeTokens_of_ne_nil (tokenize r.word) (h r hrm)]
  simp only [List.map_map, List.filter_map]
  rfl

/-- Witness for C5: two words, tokenized into one and two
non-punctuation tokens respectively, yield one row and two rows, each
replicating the word fields, in tokenizer order. -/
theorem claim5_explode_row_per_token_witness :
    tokenize_and_explode ([] : List (String × List ℚ))
        (fun w => if w = "hello" then ["he", "llo"] else ["x"])
        (fun _ => 3) (fun o => o.getD "") "gpt2"
        [{ word := "hello", wordFields := (7 : Nat), glove50_embeddings := none,
           token := none, token_id := 0, is_root := false },
         { word := "x", wordFields := 9, glove50_embeddings := none,
           token := none, token_id := 0, is_root := false }] =
      Except.ok (([{ word := "hello", wordFields := (7 : Nat), glove50_embeddings := none,
                     token := none, token_id := 0, is_root := false },
                   { word := "x", wordFields := 9, glove50_embeddings := none,
                     token := none, token_id := 0, is_root := false }] : List (Row Nat)).flatMap
        (fun r =>
          (((fun w => if w = "hello" then ["he", "llo"] else ["x"]) r.word).filter
            (fun t => !(punctuationStrings.contains t))).map
            (fun t =>
              { word := r.word, wordFields := r.wordFields,
                glove50_embeddings := get_vector r.word [],
                token := some t, token_id := (fun _ => 3) (some t),
                is_root := r.word == (((fun (o : Option String) => o.getD "")
                  (some t)).trim) }))) :=
  claim5_explode_row_per_token [] (fun w => if w = "hello" then ["he", "llo"] else ["x"])
    (fun _ => 3) (fun o => o.getD "") _ (by decide)

end Tfsemb
